import Mathlib

/-!
Shallow embedding of the `logs` package of toobprojects/go-commons
(`src/logs/logs.go`): a process-wide structured-logging runtime built on
Go's `log/slog`.  Pure functions model handler construction and record
handling; the package-level mutable globals (`logger`, `once`,
`currentCfg`) are modelled as an explicit `State` threaded through the
operations `Init`, `SetLogFile` and `get`.  `sync.Once` is modelled as an
atomic test-and-set flag (`onceDone`), which is exactly the guarantee the
Go runtime provides for `once.Do`; a ghost counter `lazyInits` counts how
many times the lazy-initialization body actually ran.
-/

namespace Logs

/-- Numeric value of `slog.LevelDebug`. -/
def levelDebug : Int := -4

/-- Numeric value of `slog.LevelInfo`. -/
def levelInfo : Int := 0

/-- Numeric value of `slog.LevelWarn`. -/
def levelWarn : Int := 4

/-- Numeric value of `slog.LevelError`. -/
def levelError : Int := 8

/-- ANSI reset sequence (`colorReset` in the source). -/
def colorReset : String := "\x1b[0m"

/-- ANSI red (`colorRed`). -/
def colorRed : String := "\x1b[31m"

/-- ANSI yellow (`colorYellow`). -/
def colorYellow : String := "\x1b[33m"

/-- ANSI green (`colorGreen`). -/
def colorGreen : String := "\x1b[32m"

/-- ANSI blue (`colorBlue`). -/
def colorBlue : String := "\x1b[34m"

/-- Flags passed to `os.OpenFile` by `SetLogFile`. -/
inductive OFlag where
  | create
  | wronly
  | append
deriving DecidableEq, Repr

/-- The flag list `os.O_CREATE|os.O_WRONLY|os.O_APPEND` used in `SetLogFile`. -/
def logFileFlags : List OFlag := [OFlag.create, OFlag.wronly, OFlag.append]

/-- An `io.Writer` destination, as the logging runtime can produce them:
standard streams or a file opened with given flags. -/
inductive Sink where
  | stdout
  | stderr
  | file (path : String) (flags : List OFlag)
deriving DecidableEq, Repr

/-- The `Config` struct of the source.  `Level` and `Out` are interface
fields in Go and may be `nil`, hence `Option`. -/
structure Config where
  Level : Option Int
  JSON  : Bool
  Out   : Option Sink
  Color : Bool
deriving DecidableEq, Repr

/-- The package-level `defaultCfg` value. -/
def defaultCfg : Config :=
  { Level := some levelInfo, JSON := false, Out := some Sink.stdout, Color := false }

/-- The Go zero value `Config{}`, the initial value of `currentCfg`. -/
def zeroCfg : Config :=
  { Level := none, JSON := false, Out := none, Color := false }

/-- A key/value attribute (`slog.Attr`, with the value rendered to text). -/
structure Attr where
  key : String
  val : String
deriving DecidableEq, Repr

/-- A log record (`slog.Record`): level, message and its own ordered
attribute list. -/
structure Record where
  level   : Int
  message : String
  attrs   : List Attr
deriving DecidableEq, Repr

/-- Qualify an attribute key by the currently open group names, the way
slog's built-in text/JSON handlers scope attributes added after
`WithGroup` calls.  With no open groups the key is unchanged. -/
def qualifyKey (gs : List String) (k : String) : String :=
  match gs with
  | [] => k
  | _ => String.intercalate "." gs ++ "." ++ k

/-- Qualify one attribute by the open group names. -/
def qualifyAttr (gs : List String) (a : Attr) : Attr :=
  { key := qualifyKey gs a.key, val := a.val }

/-- The handler chain: slog's built-in text and JSON handlers (carrying
their sink, configured minimum level, accumulated preformatted attributes
and open groups), and the package's `colorHandler` decorator wrapping an
inner handler. -/
inductive Handler where
  | text (out : Sink) (level : Int) (attrs : List Attr) (groups : List String)
  | json (out : Sink) (level : Int) (attrs : List Attr) (groups : List String)
  | color (h : Handler)
deriving DecidableEq, Repr

namespace Handler

/-- Derivation with attributes: the built-in handlers append the new
attributes (qualified by the open groups) in order; `colorHandler.WithAttrs`
returns a new `colorHandler` wrapping the inner handler's derivation. -/
def withAttrs : Handler → List Attr → Handler
  | text o l as gs, new => text o l (as ++ new.map (qualifyAttr gs)) gs
  | json o l as gs, new => json o l (as ++ new.map (qualifyAttr gs)) gs
  | color h, new => color (h.withAttrs new)

/-- Derivation with a group: the built-in handlers open a new group scope;
`colorHandler.WithGroup` returns a new `colorHandler` wrapping the inner
handler's derivation. -/
def withGroup : Handler → String → Handler
  | text o l as gs, g => text o l as (gs ++ [g])
  | json o l as gs, g => json o l as (gs ++ [g])
  | color h, g => color (h.withGroup g)

/-- The `Enabled` method: the built-in handlers compare the record level
against their configured minimum; `colorHandler.Enabled` delegates to the
inner handler. -/
def enabled : Handler → Int → Bool
  | text _ l _ _, lv => decide (l ≤ lv)
  | json _ l _ _, lv => decide (l ≤ lv)
  | color h, lv => h.enabled lv

end Handler

/-- What arrives at the sink for one handled record: the destination, the
final message text and the final ordered attribute list. -/
structure Emitted where
  out     : Sink
  message : String
  attrs   : List Attr
deriving DecidableEq, Repr

/-- The color chosen by `colorHandler.Handle`'s switch on the record
level. -/
def colorFor (l : Int) : String :=
  if levelError ≤ l then colorRed
  else if levelWarn ≤ l then colorYellow
  else if levelInfo ≤ l then colorGreen
  else colorBlue

/-- The `Handle` method.  The built-in handlers render the message
unchanged and put the accumulated attributes before the record's own
(qualified by the open groups).  `colorHandler.Handle` works on a copy of
the record (`r.Clone()` in the source; values are immutable here, so the
caller's record is untouched by construction), rewrites the copy's message
to `color ++ message ++ colorReset` when the chosen color is nonempty, and
delegates to the inner handler. -/
def Handler.handle : Handler → Record → Emitted
  | Handler.text o _ as gs, r => { out := o, message := r.message, attrs := as ++ r.attrs.map (qualifyAttr gs) }
  | Handler.json o _ as gs, r => { out := o, message := r.message, attrs := as ++ r.attrs.map (qualifyAttr gs) }
  | Handler.color h, r =>
      let c := colorFor r.level
      let r2 := if c ≠ "" then { r with message := c ++ r.message ++ colorReset } else r
      h.handle r2

/-- One emission through a handler, as `slog.Logger` drives it: the record
reaches the sink only if the handler reports itself enabled for the
record's level. -/
def Handler.emit (h : Handler) (r : Record) : Option Emitted :=
  if h.enabled r.level then some (h.handle r) else none

/-- Fill `nil` config fields from `defaultCfg`, as the first lines of
`Init` do. -/
def fillCfg (cfg : Config) : Config :=
  let c1 := if cfg.Out = none then { cfg with Out := defaultCfg.Out } else cfg
  if c1.Level = none then { c1 with Level := defaultCfg.Level } else c1

/-- Handler-chain construction in `Init`, after the `nil` fields have been
filled: JSON selects the JSON handler; otherwise the text handler, wrapped
by the color decorator exactly when `Color` is set. -/
def buildHandler (cfg : Config) : Handler :=
  let o := cfg.Out.getD Sink.stdout
  let l := cfg.Level.getD levelInfo
  if cfg.JSON then Handler.json o l [] []
  else
    let base := Handler.text o l [] []
    if cfg.Color then Handler.color base else base

/-- The package-level mutable globals: `logger` (nil before first
initialization), the `sync.Once` done flag, `currentCfg`, plus a ghost
counter of how many times the lazy-initialization body ran. -/
structure State where
  logger     : Option Handler
  onceDone   : Bool
  currentCfg : Config
  lazyInits  : Nat
deriving DecidableEq, Repr

/-- Process start: `logger = nil`, the once barrier untriggered,
`currentCfg = Config{}`. -/
def initialState : State :=
  { logger := none, onceDone := false, currentCfg := zeroCfg, lazyInits := 0 }

/-- The `Init` function: fill `nil` fields from the defaults, build the
handler chain, publish the new logger and remember the active config. -/
def Init (cfg : Config) (s : State) : State :=
  let c := fillCfg cfg
  { s with logger := some (buildHandler c), currentCfg := c }

/-- The state transition of `get`: `once.Do(func() { Init(defaultCfg) })`.
The body runs exactly when the once barrier has not yet been triggered,
regardless of whether an explicit `Init` already happened (the source
keeps no `initialized` flag). -/
def getStep (s : State) : State :=
  if s.onceDone then s
  else { Init defaultCfg s with onceDone := true, lazyInits := s.lazyInits + 1 }

/-- The `get` function: trigger the once barrier, then return the current
global logger. -/
def get (s : State) : Option Handler × State :=
  let s2 := getStep s
  (s2.logger, s2)

/-- The `SetLogFile` function.  `openOk` models whether `os.OpenFile`
succeeds; on failure the I/O error is returned and the globals are left
untouched.  On success: start from `currentCfg`, fall back to `defaultCfg`
when `currentCfg` is the zero config (both `Out` and `Level` nil), replace
the output with the freshly opened append-mode file, and reinitialize via
`Init`. -/
def SetLogFile (path : String) (openOk : Bool) (s : State) : Option String × State :=
  if openOk = false then (some "open failed", s)
  else
    let f : Sink := Sink.file path logFileFlags
    let cfg := s.currentCfg
    let cfg := if cfg.Out = none ∧ cfg.Level = none then defaultCfg else cfg
    let cfg := { cfg with Out := some f }
    (none, Init cfg s)

/-- The package-level `With` helper: fetch the current logger (triggering
lazy initialization) and derive it with the given attributes, as
`slog.Logger.With` does through `Handler.WithAttrs`. -/
def With (s : State) (attrs : List Attr) : Option Handler × State :=
  let r := get s
  (r.1.map (fun h => h.withAttrs attrs), r.2)

/-- The package-level `WithGroup` helper: fetch the current logger and
derive it with the given group name. -/
def WithGroup (s : State) (g : String) : Option Handler × State :=
  let r := get s
  (r.1.map (fun h => h.withGroup g), r.2)

/-- One step of a scoped-logger derivation chain: either a with-attributes
or a with-group derivation. -/
inductive DerivStep where
  | attrs (as : List Attr)
  | group (g : String)
deriving DecidableEq, Repr

/-- Apply one derivation step to a handler. -/
def applyDeriv (h : Handler) : DerivStep → Handler
  | DerivStep.attrs as => h.withAttrs as
  | DerivStep.group g => h.withGroup g

/-- Apply a derivation chain, left to right. -/
def applyChain (h : Handler) : List DerivStep → Handler
  | [] => h
  | d :: ds => applyChain (applyDeriv h d) ds

/-- Iterated `get` calls: `n` sequential callers each running the state
transition of `get`. -/
def iterGet : Nat → State → State
  | 0, s => s
  | n + 1, s => iterGet n (getStep s)

/-- The attribute context a handler has accumulated through derivations
(the color decorator holds none of its own). -/
def ctxAttrs : Handler → List Attr
  | Handler.text _ _ as _ => as
  | Handler.json _ _ as _ => as
  | Handler.color h => ctxAttrs h

/-- The open group names of a handler. -/
def pfxOf : Handler → List String
  | Handler.text _ _ _ gs => gs
  | Handler.json _ _ _ gs => gs
  | Handler.color h => pfxOf h

/-- The configured minimum level of a handler chain. -/
def levelOf : Handler → Int
  | Handler.text _ l _ _ => l
  | Handler.json _ l _ _ => l
  | Handler.color h => levelOf h

/-- Whether the chain formats as JSON. -/
def isJSONH : Handler → Bool
  | Handler.text _ _ _ _ => false
  | Handler.json _ _ _ _ => true
  | Handler.color h => isJSONH h

/-- Whether the chain is wrapped by the color decorator. -/
def colored : Handler → Bool
  | Handler.text _ _ _ _ => false
  | Handler.json _ _ _ _ => false
  | Handler.color _ => true

/-- The sink at the bottom of a handler chain. -/
def sinkOf : Handler → Sink
  | Handler.text o _ _ _ => o
  | Handler.json o _ _ _ => o
  | Handler.color h => sinkOf h

/-- A concrete non-default configuration (JSON format) used to exercise
the interaction of explicit `Init` with the lazy barrier in `get`. -/
def jsonCfg : Config :=
  { Level := some levelInfo, JSON := true, Out := some Sink.stdout, Color := false }

/-! Helper lemmas about the embedded operations. -/

/-- The color chosen by the switch in `colorHandler.Handle` is never the
empty string, so the message rewrite is always performed. -/
lemma colorFor_ne_empty (l : Int) : colorFor l ≠ "" := by
  unfold colorFor
  split
  · decide
  · split
    · decide
    · split
      · decide
      · decide

/-- Unfolding `colorHandler.Handle`: it always delegates the record with
the color-wrapped message. -/
lemma handle_color (h : Handler) (r : Record) :
    (Handler.color h).handle r
      = h.handle { r with message := colorFor r.level ++ r.message ++ colorReset } := by
  simp [Handler.handle, colorFor_ne_empty r.level]

/-- Filling a config normalizes both optional fields to `some`. -/
lemma fillCfg_eq (cfg : Config) :
    fillCfg cfg =
      { Level := some (cfg.Level.getD levelInfo), JSON := cfg.JSON,
        Out := some (cfg.Out.getD Sink.stdout), Color := cfg.Color } := by
  rcases cfg with ⟨lv, j, o, c⟩
  cases lv <;> cases o <;> simp [fillCfg, defaultCfg]

/-- The configured minimum level of a built chain is the config's
effective level. -/
lemma levelOf_buildHandler (cfg : Config) :
    levelOf (buildHandler cfg) = cfg.Level.getD levelInfo := by
  unfold buildHandler
  split
  · rfl
  · split <;> rfl

/-- The built chain formats as JSON exactly when the config says so. -/
lemma isJSONH_buildHandler (cfg : Config) :
    isJSONH (buildHandler cfg) = cfg.JSON := by
  unfold buildHandler
  split
  · simp [isJSONH, *]
  · split <;> simp_all [isJSONH]

/-- The built chain is color-wrapped exactly when the format is text and
color is requested. -/
lemma colored_buildHandler (cfg : Config) :
    colored (buildHandler cfg) = (!cfg.JSON && cfg.Color) := by
  unfold buildHandler
  split
  · simp [colored, *]
  · split <;> simp_all [colored]

/-- The sink of a built chain is the config's effective output. -/
lemma sinkOf_buildHandler (cfg : Config) :
    sinkOf (buildHandler cfg) = cfg.Out.getD Sink.stdout := by
  unfold buildHandler
  split
  · rfl
  · split <;> rfl

/-- A built chain is enabled for a level exactly when the level reaches
the config's effective threshold. -/
lemma enabled_buildHandler (cfg : Config) (lv : Int) :
    (buildHandler cfg).enabled lv = decide (cfg.Level.getD levelInfo ≤ lv) := by
  unfold buildHandler
  split
  · rfl
  · split <;> rfl

/-- A record passes `emit` exactly when the handler is enabled for its
level. -/
lemma emit_isSome (h : Handler) (r : Record) :
    (h.emit r).isSome = h.enabled r.level := by
  unfold Handler.emit
  by_cases hb : h.enabled r.level = true
  · simp [hb]
  · simp [hb]

/-- Deriving with attributes does not change the open groups. -/
lemma pfxOf_withAttrs (l : Handler) (a : List Attr) :
    pfxOf (l.withAttrs a) = pfxOf l := by
  induction l with
  | text o lv as gs => rfl
  | json o lv as gs => rfl
  | color h ih => simpa [Handler.withAttrs, pfxOf] using ih

/-- Deriving with attributes appends them (group-qualified) to the
accumulated context, in order. -/
lemma ctxAttrs_withAttrs (l : Handler) (a : List Attr) :
    ctxAttrs (l.withAttrs a) = ctxAttrs l ++ a.map (qualifyAttr (pfxOf l)) := by
  induction l with
  | text o lv as gs => rfl
  | json o lv as gs => rfl
  | color h ih => simpa [Handler.withAttrs, ctxAttrs, pfxOf] using ih

/-- A handled record's final attribute list is the accumulated context
followed by the record's own attributes, group-qualified; color
decoration never touches attributes. -/
lemma handle_attrs (l : Handler) (r : Record) :
    (l.handle r).attrs = ctxAttrs l ++ r.attrs.map (qualifyAttr (pfxOf l)) := by
  induction l generalizing r with
  | text o lv as gs => rfl
  | json o lv as gs => rfl
  | color h ih =>
      rw [handle_color]
      simpa [ctxAttrs, pfxOf] using ih { r with message := colorFor r.level ++ r.message ++ colorReset }

/-- With no open groups, qualification leaves attributes unchanged. -/
lemma map_qualifyAttr_nil (xs : List Attr) : xs.map (qualifyAttr []) = xs := by
  induction xs with
  | nil => rfl
  | cons x t ih => simp [qualifyAttr, qualifyKey, ih]

/-- Derivation chains commute with the color decorator: each step on a
color-wrapped handler wraps the inner handler's own derivation. -/
lemma applyChain_color (h : Handler) (ds : List DerivStep) :
    applyChain (Handler.color h) ds = Handler.color (applyChain h ds) := by
  induction ds generalizing h with
  | nil => rfl
  | cons d ds ih =>
      cases d with
      | attrs as => simpa [applyChain, applyDeriv, Handler.withAttrs] using ih (h.withAttrs as)
      | group g => simpa [applyChain, applyDeriv, Handler.withGroup] using ih (h.withGroup g)

/-- Once the barrier has been triggered, further `get` calls change
nothing. -/
lemma getStep_of_done (s : State) (h : s.onceDone = true) : getStep s = s := by
  simp [getStep, h]

/-- Iterating `get` from a triggered state is the identity. -/
lemma iterGet_stable (n : Nat) (s : State) (h : s.onceDone = true) : iterGet n s = s := by
  induction n with
  | zero => rfl
  | succ n ih => rw [iterGet, getStep_of_done s h, ih]

/-- After the first `get`, every further `get` leaves the state at the
result of the first one. -/
lemma iterGet_initial (m : Nat) : iterGet (m + 1) initialState = getStep initialState := by
  rw [iterGet]
  exact iterGet_stable m (getStep initialState) rfl

/-! Claim theorems. -/

/-- Claim C1.  The claim fails on the code: after an explicit
`Init(jsonCfg)` (building a JSON handler chain and recording
`JSON = true`), the first `get()` call still triggers the `sync.Once`
barrier — the source keeps no `initialized` flag — and its
`Init(defaultCfg)` replaces the explicitly configured JSON logger with
the default text chain, so the logger `get` returns is not the one the
explicit `Init` installed. -/
theorem get_overwrites_explicit_Init :
    (Init jsonCfg initialState).currentCfg.JSON = true
    ∧ (Init jsonCfg initialState).logger = some (Handler.json Sink.stdout levelInfo [] [])
    ∧ (getStep (Init jsonCfg initialState)).currentCfg.JSON = false
    ∧ (getStep (Init jsonCfg initialState)).logger
        = some (Handler.text Sink.stdout levelInfo [] [])
    ∧ (get (Init jsonCfg initialState)).1 ≠ (Init jsonCfg initialState).logger :=
  ⟨rfl, rfl, rfl, rfl, by decide⟩

/-- Claim C7.  When the sink cannot be opened, `SetLogFile` returns the
I/O error and the global state — active logger and last applied
configuration included — is exactly what it was before the call. -/
theorem SetLogFile_failure_leaves_state (p : String) (s : State) :
    SetLogFile p false s = (some "open failed", s) := rfl

/-- Claim C10.  A successful `SetLogFile(p)` before any `Init` installs a
logger with the built-in defaults — level Info, text format, color
disabled — over the file opened at `p` with create/write-only/append
flags, and records those defaults (with the file sink) as the last
configuration. -/
theorem SetLogFile_before_Init_uses_defaults (p : String) :
    (SetLogFile p true initialState).1 = none
    ∧ (SetLogFile p true initialState).2.currentCfg =
        { Level := some levelInfo, JSON := false,
          Out := some (Sink.file p logFileFlags), Color := false }
    ∧ (SetLogFile p true initialState).2.logger =
        some (Handler.text (Sink.file p logFileFlags) levelInfo [] []) :=
  ⟨rfl, rfl, rfl⟩

/-- Claim C9.  Starting from process start with no explicit `Init`, any
positive number of (sequentialized, the `sync.Once` barrier being an
atomic test-and-set) `get` calls runs the lazy default initialization
exactly once, and every caller observes the one default chain. -/
theorem lazy_default_init_exactly_once (n : Nat) (h : 1 ≤ n) :
    (iterGet n initialState).lazyInits = 1
    ∧ (iterGet n initialState).logger = some (buildHandler defaultCfg)
    ∧ (iterGet n initialState).currentCfg = defaultCfg
    ∧ ∀ m, 1 ≤ m → (iterGet m initialState).logger = (iterGet n initialState).logger := by
  obtain ⟨n, rfl⟩ : ∃ k, n = k + 1 := ⟨n - 1, (Nat.succ_pred_eq_of_pos h).symm⟩
  rw [iterGet_initial]
  refine ⟨rfl, rfl, rfl, ?_⟩
  intro m hm
  obtain ⟨m, rfl⟩ : ∃ k, m = k + 1 := ⟨m - 1, (Nat.succ_pred_eq_of_pos hm).symm⟩
  rw [iterGet_initial]

/-- Claim C9 witness: three racing callers — the lazy body ran once and
the third caller sees the same default logger as the first. -/
theorem lazy_default_init_exactly_once_spot :
    (iterGet 3 initialState).lazyInits = 1
    ∧ (iterGet 3 initialState).logger = some (buildHandler defaultCfg)
    ∧ (iterGet 1 initialState).logger = (iterGet 3 initialState).logger := by
  have h := lazy_default_init_exactly_once 3 (by decide)
  exact ⟨h.1, h.2.1, h.2.2.2 1 (by decide)⟩

/-- Claim C3.  A with-attributes or with-group derivation of a
color-decorated handler — and hence any chain of such derivations —
yields a color decorator wrapping the inner handler's own derivation,
and handling through the derived chain still rewrites the message with
the level color. -/
theorem color_decoration_survives_derivation (h : Handler) (ds : List DerivStep) (r : Record) :
    applyChain (Handler.color h) ds = Handler.color (applyChain h ds)
    ∧ (applyChain (Handler.color h) ds).handle r
        = (applyChain h ds).handle
            { r with message := colorFor r.level ++ r.message ++ colorReset } := by
  refine ⟨applyChain_color h ds, ?_⟩
  rw [applyChain_color h ds, handle_color]

/-- Claim C5.  `colorHandler.Handle` delegates to the inner handler a
record identical to the (immutable) input except that its message is
color-code ++ message ++ reset-code, with red at or above Error, yellow
at or above Warn, green at or above Info, and blue below Info. -/
theorem colorHandler_Handle_rewrites_message (hi : Handler) (r : Record) :
    (Handler.color hi).handle r
        = hi.handle { r with message := colorFor r.level ++ r.message ++ colorReset }
    ∧ (levelError ≤ r.level → colorFor r.level = colorRed)
    ∧ (levelWarn ≤ r.level → r.level < levelError → colorFor r.level = colorYellow)
    ∧ (levelInfo ≤ r.level → r.level < levelWarn → colorFor r.level = colorGreen)
    ∧ (r.level < levelInfo → colorFor r.level = colorBlue) := by
  refine ⟨handle_color hi r, ?_, ?_, ?_, ?_⟩
  · intro h1
    rw [colorFor, if_pos h1]
  · intro h1 h2
    rw [colorFor, if_neg (by omega), if_pos h1]
  · intro h1 h2
    rw [colorFor, if_neg (by unfold levelError levelWarn at *; omega),
      if_neg (by omega), if_pos h1]
  · intro h1
    rw [colorFor, if_neg (by unfold levelError levelInfo at *; omega),
      if_neg (by unfold levelWarn levelInfo at *; omega), if_neg (by omega)]

/-- Claim C5 witness: at level 8 (Error) the delegated message is wrapped
in red, at the concrete record and inner text handler. -/
theorem colorHandler_Handle_rewrites_message_spot :
    colorFor 8 = colorRed
    ∧ (Handler.color (Handler.text Sink.stdout 0 [] [])).handle ⟨8, "boom", []⟩
        = (Handler.text Sink.stdout 0 [] []).handle ⟨8, colorFor 8 ++ "boom" ++ colorReset, []⟩ := by
  have h := colorHandler_Handle_rewrites_message (Handler.text Sink.stdout 0 [] []) ⟨8, "boom", []⟩
  exact ⟨h.2.1 (by decide), h.1⟩

/-- Claim C4.  Handler-chain construction is a pure function of the
format flag: with JSON set the chain is the JSON handler (never
color-wrapped, and handling leaves the message byte-for-byte unchanged,
so no ANSI escapes are injected) regardless of the color flag; with JSON
unset it is the text handler, color-wrapped exactly when the color flag
is set. -/
theorem buildHandler_pure_format_selection (cfg : Config) (r : Record) :
    (cfg.JSON = true →
        buildHandler cfg
          = Handler.json (cfg.Out.getD Sink.stdout) (cfg.Level.getD levelInfo) [] []
        ∧ ((buildHandler cfg).handle r).message = r.message)
    ∧ (cfg.JSON = false →
        buildHandler cfg =
          if cfg.Color then
            Handler.color
              (Handler.text (cfg.Out.getD Sink.stdout) (cfg.Level.getD levelInfo) [] [])
          else Handler.text (cfg.Out.getD Sink.stdout) (cfg.Level.getD levelInfo) [] [])
    ∧ colored (buildHandler cfg) = (!cfg.JSON && cfg.Color) := by
  refine ⟨?_, ?_, colored_buildHandler cfg⟩
  · intro hj
    constructor
    · simp [buildHandler, hj]
    · simp [buildHandler, hj, Handler.handle]
  · intro hj
    simp [buildHandler, hj]

/-- Claim C4 witness: with JSON and color both requested the chain is the
bare JSON handler; with text and color it is the color-wrapped text
handler. -/
theorem buildHandler_pure_format_selection_spot :
    buildHandler { Level := some 0, JSON := true, Out := some Sink.stdout, Color := true }
      = Handler.json Sink.stdout 0 [] []
    ∧ buildHandler { Level := some 0, JSON := false, Out := some Sink.stdout, Color := true }
      = Handler.color (Handler.text Sink.stdout 0 [] []) := by
  constructor
  · exact ((buildHandler_pure_format_selection
      { Level := some 0, JSON := true, Out := some Sink.stdout, Color := true }
      ⟨0, "", []⟩).1 rfl).1
  · have h := (buildHandler_pure_format_selection
      { Level := some 0, JSON := false, Out := some Sink.stdout, Color := true }
      ⟨0, "", []⟩).2.1 rfl
    simpa using h

/-- Claim C6.  Through a chain built by `Init` from any config, an
emitted record reaches the sink exactly when its level is at or above
the configured (effective) threshold; `colorHandler.Enabled` returns
exactly the inner handler's answer; and the four named levels are
totally ordered Debug < Info < Warn < Error. -/
theorem record_reaches_sink_iff_threshold (cfg : Config) (r : Record) (hi : Handler) (lv : Int) :
    ((buildHandler (fillCfg cfg)).emit r).isSome = decide (cfg.Level.getD levelInfo ≤ r.level)
    ∧ (Handler.color hi).enabled lv = hi.enabled lv
    ∧ levelDebug < levelInfo ∧ levelInfo < levelWarn ∧ levelWarn < levelError := by
  refine ⟨?_, rfl, by decide, by decide, by decide⟩
  rw [emit_isSome, fillCfg_eq, enabled_buildHandler]
  simp

/-- Claim C2.  After `Init(cfg1)` and a successful `SetLogFile(p)`, the
remembered configuration and the rebuilt logger keep `cfg1`'s level,
format and color setting; only the output changes, to the file opened at
`p` in create/write-only/append mode. -/
theorem Init_then_SetLogFile_preserves_config (cfg1 : Config) (l : Int) (p : String)
    (s0 : State) (hL : cfg1.Level = some l) :
    (SetLogFile p true (Init cfg1 s0)).1 = none
    ∧ (SetLogFile p true (Init cfg1 s0)).2.currentCfg =
        { Level := some l, JSON := cfg1.JSON,
          Out := some (Sink.file p logFileFlags), Color := cfg1.Color }
    ∧ (SetLogFile p true (Init cfg1 s0)).2.logger =
        some (buildHandler
          { Level := some l, JSON := cfg1.JSON,
            Out := some (Sink.file p logFileFlags), Color := cfg1.Color })
    ∧ ∀ h, (SetLogFile p true (Init cfg1 s0)).2.logger = some h →
        levelOf h = l ∧ isJSONH h = cfg1.JSON
        ∧ colored h = (!cfg1.JSON && cfg1.Color)
        ∧ sinkOf h = Sink.file p logFileFlags := by
  have hfill : fillCfg cfg1 =
      { Level := some l, JSON := cfg1.JSON,
        Out := some (cfg1.Out.getD Sink.stdout), Color := cfg1.Color } := by
    rw [fillCfg_eq, hL]
    rfl
  have hlog : (SetLogFile p true (Init cfg1 s0)).2.logger =
      some (buildHandler
        { Level := some l, JSON := cfg1.JSON,
          Out := some (Sink.file p logFileFlags), Color := cfg1.Color }) := by
    simp [SetLogFile, Init, hfill, fillCfg_eq]
  refine ⟨by simp [SetLogFile, Init, hfill], ?_, hlog, ?_⟩
  · simp [SetLogFile, Init, hfill, fillCfg_eq]
  · intro h hh
    rw [hlog] at hh
    have hb := Option.some.inj hh
    subst hb
    refine ⟨?_, ?_, ?_, ?_⟩
    · rw [levelOf_buildHandler]
      rfl
    · rw [isJSONH_buildHandler]
    · rw [colored_buildHandler]
    · rw [sinkOf_buildHandler]
      rfl

/-- Claim C2 witness: a JSON, colored, level-4 config keeps all three
settings across `SetLogFile`, with the sink redirected to the file. -/
theorem Init_then_SetLogFile_preserves_config_spot :
    (SetLogFile "app.log" true
        (Init { Level := some 4, JSON := true, Out := none, Color := true }
          initialState)).2.currentCfg =
      { Level := some 4, JSON := true,
        Out := some (Sink.file "app.log" logFileFlags), Color := true } :=
  (Init_then_SetLogFile_preserves_config
    { Level := some 4, JSON := true, Out := none, Color := true }
    4 "app.log" initialState rfl).2.1

/-- Claim C8.  With no open groups, `With(a).With(b)` (via
`Handler.WithAttrs`) yields a logger whose context carries the parent's
attributes, then `a`, then `b`, in insertion order with no reordering or
deduplication; records it handles carry exactly that context before
their own attributes; and the parent's own emissions are unchanged and
carry no attribute of `a` or `b` that the parent did not already have. -/
theorem With_With_insertion_order (l : Handler) (a b : List Attr) (r : Record)
    (hg : pfxOf l = []) :
    ctxAttrs ((l.withAttrs a).withAttrs b) = ctxAttrs l ++ a ++ b
    ∧ (((l.withAttrs a).withAttrs b).handle r).attrs = ctxAttrs l ++ a ++ b ++ r.attrs
    ∧ (l.handle r).attrs = ctxAttrs l ++ r.attrs
    ∧ ∀ x, (x ∈ a ∨ x ∈ b) → x ∉ ctxAttrs l → x ∉ r.attrs → x ∉ (l.handle r).attrs := by
  have hpa : pfxOf (l.withAttrs a) = [] := by rw [pfxOf_withAttrs, hg]
  have hpb : pfxOf ((l.withAttrs a).withAttrs b) = [] := by rw [pfxOf_withAttrs, hpa]
  have h1 : ctxAttrs ((l.withAttrs a).withAttrs b) = ctxAttrs l ++ a ++ b := by
    rw [ctxAttrs_withAttrs, ctxAttrs_withAttrs, hpa, hg, map_qualifyAttr_nil,
      map_qualifyAttr_nil]
  have h3 : (l.handle r).attrs = ctxAttrs l ++ r.attrs := by
    rw [handle_attrs, hg, map_qualifyAttr_nil]
  refine ⟨h1, ?_, h3, ?_⟩
  · rw [handle_attrs, h1, hpb, map_qualifyAttr_nil]
  · intro x _ hnc hnr hmem
    rw [h3] at hmem
    rcases List.mem_append.mp hmem with hc | hr
    · exact hnc hc
    · exact hnr hr

/-- Claim C8 witness: a concrete parent with one context attribute,
derived twice; the doubly derived context is parent ++ a ++ b. -/
theorem With_With_insertion_order_spot :
    ctxAttrs (((Handler.text Sink.stdout 0 [⟨"k", "v"⟩] []).withAttrs
        [⟨"a1", "1"⟩]).withAttrs [⟨"b1", "2"⟩])
      = ctxAttrs (Handler.text Sink.stdout 0 [⟨"k", "v"⟩] [])
          ++ [⟨"a1", "1"⟩] ++ [⟨"b1", "2"⟩] :=
  (With_With_insertion_order (Handler.text Sink.stdout 0 [⟨"k", "v"⟩] [])
    [⟨"a1", "1"⟩] [⟨"b1", "2"⟩] ⟨0, "m", []⟩ rfl).1

end Logs
